import Mathlib

/-!
Verification development for the transcriber_Wiz repository.

Shallow embedding of the functions the claims are about:
* utils.sanitize_filename       (src/utils.py, lines 23-35)
* transcriber.transcribe_audio  (src/transcriber.py, lines 45-90)
* transcriber.transcribe_in_batches (src/transcriber.py, lines 92-177)
* file_manager.save_transcript  (src/file_manager.py, lines 5-29)

Python strings are modelled as `List Char`, floating-point second counts as
exact rationals (the code only adds, compares and truncates durations, so
the rational model captures the arithmetic exactly), Python `None` as
`Option.none`, and a raised-and-caught exception via an explicit outcome
type for each try-block body.
-/

namespace TranscriberWiz

/-! ## utils.py -/

/-- ASCII whitespace, the characters matched by Python's regex class
backslash-s and stripped by str.strip once the string is ASCII-only
(which it is at every point the code applies them). -/
def isSpace (c : Char) : Bool :=
  c.toNat == 32 || c.toNat == 9 || c.toNat == 10 || c.toNat == 13 ||
  c.toNat == 11 || c.toNat == 12

/-- ASCII word characters, the characters matched by Python's regex class
backslash-w on an ASCII string: letters, digits and the underscore. -/
def isWordChar (c : Char) : Bool :=
  (65 ≤ c.toNat && c.toNat ≤ 90) || (97 ≤ c.toNat && c.toNat ≤ 122) ||
  (48 ≤ c.toNat && c.toNat ≤ 57) || c.toNat == 95

/-- Line 27 of utils.py: re.sub removing every occurrence of the literal
"/podcast/", scanning left to right, non-overlapping (scanning resumes
right after the final slash of a removed occurrence). -/
def removePodcast : List Char → List Char
  | '/' :: 'p' :: 'o' :: 'd' :: 'c' :: 'a' :: 's' :: 't' :: '/' :: rest =>
      removePodcast rest
  | c :: cs => c :: removePodcast cs
  | [] => []

/-- Line 28 of utils.py: re.sub removing every occurrence of the pattern
"id" followed by one or more digits (greedy, leftmost, non-overlapping;
scanning resumes right after each removed match).  The Boolean argument
records whether the scanner is inside the digit run of a match: when it
is true and the head is a digit, the digit is still part of the match
being removed. -/
def removeIdNumAux : Bool → List Char → List Char
  | _, [] => []
  | _, 'i' :: 'd' :: c2 :: rest =>
    if c2.isDigit then removeIdNumAux true rest
    else 'i' :: 'd' :: removeIdNumAux false (c2 :: rest)
  | inDigits, c :: cs =>
    if inDigits && c.isDigit then removeIdNumAux true cs
    else c :: removeIdNumAux false cs

/-- re.sub of the pattern "id" plus digits with the empty string. -/
def removeIdNum (s : List Char) : List Char := removeIdNumAux false s

/-- Line 30 of utils.py: filename.split('/')[-1], the part after the last
slash (the whole string when there is no slash). -/
def lastSlashComponent (s : List Char) : List Char :=
  ((s.reverse.takeWhile (· ≠ '/')).reverse)

/-- Models unicodedata.normalize('NFKD') characterwise.  NFKD is the
identity on ASCII characters; the non-ASCII decomposition table is not
reproduced here (modelled as the identity as well).  Every theorem below
is insensitive to the omitted entries: the code filters the NFKD output
down to ASCII immediately afterwards, and every concrete input used in a
counterexample or witness is pure ASCII, where this model is exact. -/
def nfkdChar (c : Char) : List Char := [c]

/-- The whitespace-collapsing re.sub on line 34 of utils.py, which
replaces every maximal run of whitespace by a single underscore; the
Boolean argument records whether the scanner is inside a run. -/
def collapseSpacesAux : Bool → List Char → List Char
  | _, [] => []
  | inRun, c :: cs =>
    if isSpace c then
      if inRun then collapseSpacesAux true cs
      else '_' :: collapseSpacesAux true cs
    else c :: collapseSpacesAux false cs

/-- re.sub replacing each maximal whitespace run by one underscore. -/
def collapseSpaces (s : List Char) : List Char := collapseSpacesAux false s

/-- Python str.strip: drop leading and trailing whitespace. -/
def stripChars (s : List Char) : List Char :=
  ((s.dropWhile isSpace).reverse.dropWhile isSpace).reverse

/-- utils.sanitize_filename (src/utils.py lines 23-35), step by step:
remove "/podcast/", remove "id"+digits, truncate at the first question
mark, keep the part after the last slash, NFKD-normalize, drop non-ASCII,
drop characters that are not word characters, whitespace or hyphens,
strip, and collapse whitespace runs to single underscores. -/
def sanitize_filename (filename : List Char) : List Char :=
  let f1 := removePodcast filename
  let f2 := removeIdNum f1
  let f3 := f2.takeWhile (· ≠ '?')
  let f4 := lastSlashComponent f3
  let f5 := (f4.map nfkdChar).flatten
  let f6 := f5.filter (fun c => c.toNat ≤ 127)
  let f7 := f6.filter (fun c => isWordChar c || isSpace c || c == '-')
  collapseSpaces (stripChars f7)

example : sanitize_filename "i.d123".data = "id123".data := by decide
example : sanitize_filename "id123".data = [] := by decide
example : sanitize_filename "a-b".data = "a-b".data := by decide
example : sanitize_filename "  a b  ".data = "a_b".data := by decide
example : sanitize_filename "/podcast/Show Name?x=1".data = "Show_Name".data := by decide
example : sanitize_filename "a/b/c d".data = "c_d".data := by decide
example : removeIdNum "xid12yid3".data = "xy".data := by decide
example : removeIdNum "idid1".data = "id".data := by decide

/-! ## transcriber.py: data model -/

/-- One time-stamped chunk of a transcription response.  The field `stop`
models the Python dictionary key "end" (a Lean keyword).  Seconds are
exact rationals; the code only adds offsets to them. -/
structure Chunk where
  start : ℚ
  stop : ℚ
  text : List Char
deriving DecidableEq, Repr

/-- A transcription-service response as the code reads it: the "text"
entry (accessed unconditionally) and the "chunks" entry, which the code
guards with an explicit key test, so it is optional here; `none` models a
response without a "chunks" key. -/
structure ServiceResult where
  text : List Char
  chunks : Option (List Chunk)
deriving DecidableEq, Repr

/-- The accumulator dict built at line 124 of transcriber.py,
full_transcription = a dict with "text" and "chunks" both present. -/
structure TranscriptionResult where
  text : List Char
  chunks : List Chunk
deriving DecidableEq, Repr

/-- View of the accumulator as a service-shaped dict (both keys present). -/
def TranscriptionResult.toService (t : TranscriptionResult) : ServiceResult :=
  ⟨t.text, some t.chunks⟩

/-- Outcome of executing the body of a Python try-block: the body either
raises an exception or returns a value. -/
inductive PyOutcome (α : Type) where
  | raised : PyOutcome α
  | returned : α → PyOutcome α
deriving DecidableEq, Repr

/-! ## transcriber.transcribe_audio (lines 45-90) -/

/-- The external world as seen by one transcribe_audio call: whether the
input path exists, the outcome of fal_client.upload_file (raised models a
network/auth failure) and the outcome of fal_client.subscribe on the
uploaded URL (raised models a failed remote call). -/
structure AudioEnv where
  file_exists : Bool
  upload : PyOutcome (List Char)
  subscribe : List Char → PyOutcome ServiceResult

/-- The try-block body of transcribe_audio: an explicit early
return None for a missing file, then upload, then subscribe; an exception
in either external call propagates out of the body. -/
def transcribe_audio_body (env : AudioEnv) : PyOutcome (Option ServiceResult) :=
  if env.file_exists = false then .returned none
  else
    match env.upload with
    | .raised => .raised
    | .returned url =>
      match env.subscribe url with
      | .raised => .raised
      | .returned r => .returned (some r)

/-- transcriber.transcribe_audio: the body wrapped in
try/except Exception, which logs and returns None on any exception. -/
def transcribe_audio (env : AudioEnv) : Option ServiceResult :=
  match transcribe_audio_body env with
  | .raised => none
  | .returned v => v

/-! ## transcriber.transcribe_in_batches (lines 92-177) -/

/-- Python int() applied to the nonnegative float that ffprobe reports
(truncation toward zero, i.e. the floor for nonnegative values; a
negative rational is clamped to 0, a case ffprobe never produces). -/
def pyInt (d : ℚ) : ℕ := d.num.toNat / d.den

/-- The fixed 9-minute segment length of line 123 (in seconds). -/
def batch_duration : ℕ := 9 * 60

/-- Line 150: starts = list(range(0, int(duration), int(batch_duration))),
the planned segment offsets 0, 540, 1080, ... below int(duration). -/
def starts (d : ℚ) : List ℕ :=
  List.range' 0 ((pyInt d + (batch_duration - 1)) / batch_duration) batch_duration

/-- The batch plan of claim C2: the (offset, duration) pairs derived from
`starts` and the fixed batch_duration, the last segment truncated to the
remaining duration (ffmpeg -t stream-copies at most what exists past the
offset; spec section 4.3). -/
def batchPlan (d : ℚ) : List (ℚ × ℚ) :=
  (starts d).map (fun (s : ℕ) => ((s : ℚ), min (batch_duration : ℚ) (d - (s : ℚ))))

/-- `tilesB lo plan hi` decides whether `plan` tiles the interval
[lo, hi) contiguously: each segment begins where the previous one ended,
has positive length, and the final segment ends exactly at `hi`. -/
def tilesB : ℚ → List (ℚ × ℚ) → ℚ → Bool
  | lo, [], hi => lo == hi
  | lo, (o, len) :: rest, hi =>
    (o == lo) && (decide ((0 : ℚ) < len)) && tilesB (o + len) rest hi

/-- The external world as seen by one transcribe_in_batches call: whether
the path exists, its size in MB, the ffprobe outcome (none models a
raised subprocess/parse error), the audio environment of the whole-file
transcribe_audio call, and per planned offset whether the ffmpeg cut
produced the batch file and the audio environment of that segment's
transcribe_audio call.  A segment worker whose future raises (including
the 10-minute result timeout) is modelled by a cut failure or a failed
segment transcription: either way it contributes nothing. -/
structure Env where
  file_exists : Bool
  file_size_mb : ℚ
  probe : Option ℚ
  audio : AudioEnv
  cut_ok : ℕ → Bool
  seg_audio : ℕ → AudioEnv

/-- Lines 150-160: the (start, result) pairs collected from the workers;
a segment contributes iff its cut produced a file and transcribe_audio
returned a truthy (non-None) result.  The code gathers them in completion
order and sorts by offset afterwards; since offsets are distinct, listing
them in plan order here yields the same sorted list. -/
def collectResults (env : Env) (duration : ℚ) : List (ℚ × ServiceResult) :=
  (starts duration).filterMap (fun s =>
    if env.cut_ok s then
      (transcribe_audio (env.seg_audio s)).map (fun r => ((s : ℚ), r))
    else none)

/-- Lines 163-170, one loop iteration: append the segment text plus one
trailing space, and append the segment's chunks (when the "chunks" key is
present) with the segment offset added to both start and end. -/
def addBatch (acc : TranscriptionResult) (p : ℚ × ServiceResult) : TranscriptionResult :=
  { text := acc.text ++ p.2.text ++ [' '],
    chunks := acc.chunks ++ (p.2.chunks.getD []).map
      (fun c => { c with start := c.start + p.1, stop := c.stop + p.1 }) }

/-- The sort key of line 162: results.sort(key=lambda x: x[0]), i.e.
compare collected (offset, result) pairs by offset. -/
abbrev byOffset (a b : ℚ × ServiceResult) : Prop := a.1 ≤ b.1

instance : IsTotal (ℚ × ServiceResult) byOffset := ⟨fun a b => le_total a.1 b.1⟩

instance : IsTrans (ℚ × ServiceResult) byOffset := ⟨fun _ _ _ h h2 => le_trans h h2⟩

/-- Lines 162-170: sort the collected results by offset and fold them
into full_transcription, which starts as empty text and no chunks. -/
def assemble (results : List (ℚ × ServiceResult)) : TranscriptionResult :=
  (results.insertionSort byOffset).foldl addBatch ⟨[], []⟩

/-- The try-block body of transcribe_in_batches: early return None for a
missing file; ffprobe (raising on failure); the small-file direct path
for at most 9 MB and at most 9 minutes; otherwise the batch path, where
constructing ThreadPoolExecutor(max_workers=min(4, total_batches)) raises
ValueError when total_batches = 0 (duration below one second). -/
def transcribe_in_batches_body (env : Env) : PyOutcome (Option ServiceResult) :=
  if env.file_exists = false then .returned none
  else
    match env.probe with
    | none => .raised
    | some duration =>
      if env.file_size_mb ≤ 9 ∧ duration ≤ 9 * 60 then
        .returned (transcribe_audio env.audio)
      else if (pyInt duration + (batch_duration - 1)) / batch_duration = 0 then
        .raised
      else
        .returned (some (assemble (collectResults env duration)).toService)

/-- transcriber.transcribe_in_batches: the body wrapped in
try/except Exception, which logs and returns None on any exception. -/
def transcribe_in_batches (env : Env) : Option ServiceResult :=
  match transcribe_in_batches_body env with
  | .raised => none
  | .returned v => v

/-! ## file_manager.save_transcript (lines 5-29) -/

/-- file_manager.save_transcript, modelled as the list of files it
writes.  The guard is `if result and 'text' in result`: a None result
writes nothing; any service-shaped dict modelled here is non-empty and
carries a "text" key, so both the TXT and the JSON file are written. -/
def save_transcript (result : Option ServiceResult) (episode_name : List Char) : List (List Char) :=
  match result with
  | none => []
  | some _ => [episode_name ++ ".txt".data, episode_name ++ "_full.json".data]

/-! ## Concrete environments used in witnesses and counterexamples -/

/-- An audio environment whose upload step raises. -/
def audioEnvFail : AudioEnv := ⟨true, .raised, fun _ => .raised⟩

/-- A 10 MB file probed at 600 seconds whose every segment cut fails. -/
def envAllFail : Env := ⟨true, 10, some 600, audioEnvFail, fun _ => false, fun _ => audioEnvFail⟩

/-- A 10 MB file probed at duration 0. -/
def envZeroDuration : Env := ⟨true, 10, some 0, audioEnvFail, fun _ => false, fun _ => audioEnvFail⟩

/-- A nonexistent input file. -/
def envMissingFile : Env := ⟨false, 10, none, audioEnvFail, fun _ => false, fun _ => audioEnvFail⟩

/-- A 3 MB file probed at 100 seconds: the small-file direct path. -/
def envSmall : Env := ⟨true, 3, some 100, audioEnvFail, fun _ => false, fun _ => audioEnvFail⟩

example : starts 600 = [0, 540] := by decide
example : transcribe_in_batches envAllFail = some ⟨[], some []⟩ := by decide
example : transcribe_in_batches envZeroDuration = none := by decide

/-! ## Fold characterizations of the assembly loop -/

/-- The chunk contribution of one collected segment: its chunks (empty
when the "chunks" key is absent) shifted by the segment offset. -/
def segChunks (p : ℚ × ServiceResult) : List Chunk :=
  (p.2.chunks.getD []).map (fun c => { c with start := c.start + p.1, stop := c.stop + p.1 })

theorem foldl_addBatch_chunks (l : List (ℚ × ServiceResult)) (t0 : List Char) (cs0 : List Chunk) :
    (l.foldl addBatch ⟨t0, cs0⟩).chunks = cs0 ++ (l.map segChunks).flatten := by
  induction l generalizing t0 cs0 with
  | nil => simp
  | cons p l ih => simp [addBatch, ih, segChunks, List.append_assoc]

theorem foldl_addBatch_text (l : List (ℚ × ServiceResult)) (t0 : List Char) (cs0 : List Chunk) :
    (l.foldl addBatch ⟨t0, cs0⟩).text = t0 ++ (l.map (fun p => p.2.text ++ [' '])).flatten := by
  induction l generalizing t0 cs0 with
  | nil => simp
  | cons p l ih => simp [addBatch, ih, List.append_assoc]

theorem assemble_chunks (results : List (ℚ × ServiceResult)) :
    (assemble results).chunks = ((results.insertionSort byOffset).map segChunks).flatten := by
  unfold assemble
  simpa using foldl_addBatch_chunks (results.insertionSort byOffset) [] []

theorem assemble_text (results : List (ℚ × ServiceResult)) :
    (assemble results).text
      = ((results.insertionSort byOffset).map (fun p => p.2.text ++ [' '])).flatten := by
  unfold assemble
  simpa using foldl_addBatch_text (results.insertionSort byOffset) [] []

/-! ## Claim C10 -/

/-- Claim C10: neither transcribe_audio nor transcribe_in_batches ever
raises to the caller: whenever the try-block body raises, the function
returns None, and whenever the body returns a value, that value is passed
through unchanged, so the caller can distinguish failure only by a None
result (the return type has no error channel). -/
theorem C10_failures_become_none (aenv : AudioEnv) (env : Env) :
    (transcribe_audio_body aenv = .raised → transcribe_audio aenv = none) ∧
    (∀ v, transcribe_audio_body aenv = .returned v → transcribe_audio aenv = v) ∧
    (transcribe_in_batches_body env = .raised → transcribe_in_batches env = none) ∧
    (∀ v, transcribe_in_batches_body env = .returned v → transcribe_in_batches env = v) := by
  refine ⟨?_, fun v => ?_, ?_, fun v => ?_⟩ <;> intro h <;>
    simp [transcribe_audio, transcribe_in_batches, h]

/-- Witness for C10 at a concrete input: an upload failure raises out of
the transcribe_audio body, and the call returns None. -/
theorem C10_witness :
    transcribe_audio_body audioEnvFail = .raised ∧ transcribe_audio audioEnvFail = none :=
  ⟨rfl, (C10_failures_become_none audioEnvFail envMissingFile).1 rfl⟩

/-! ## Claim C4 -/

/-- Claim C4: for a file whose size is at most 9 MB and whose probed
duration is at most 9 minutes, transcribe_in_batches returns exactly the
result of the single direct transcribe_audio call on the whole file,
unchanged (no segmentation path is taken). -/
theorem C4_small_file_direct (env : Env) (d : ℚ)
    (hex : env.file_exists = true) (hp : env.probe = some d)
    (hsize : env.file_size_mb ≤ 9) (hdur : d ≤ 9 * 60) :
    transcribe_in_batches env = transcribe_audio env.audio := by
  simp [transcribe_in_batches, transcribe_in_batches_body, hex, hp, hsize, hdur]

/-- Witness for C4 at a concrete input: a 3 MB, 100-second file. -/
theorem C4_witness :
    (envSmall.file_exists = true ∧ envSmall.probe = some 100 ∧
      envSmall.file_size_mb ≤ 9 ∧ (100 : ℚ) ≤ 9 * 60) ∧
    transcribe_in_batches envSmall = transcribe_audio envSmall.audio :=
  ⟨by refine ⟨rfl, rfl, ?_, ?_⟩ <;> norm_num [envSmall],
   C4_small_file_direct envSmall 100 rfl rfl (by norm_num [envSmall]) (by norm_num)⟩

/-! ## Claim C1 -/

/-- Counterexample to claim C1: with every segment failing (all cuts
fail), transcribe_in_batches does not fail and returns a value — the
empty accumulator dict — and save_transcript, whose guard accepts it,
writes both output files.  No BatchTranscriptionError exists anywhere in
the code. -/
theorem C1_counterexample :
    transcribe_in_batches envAllFail = some ⟨[], some []⟩ ∧
    save_transcript (transcribe_in_batches envAllFail) "ep".data
      = ["ep.txt".data, "ep_full.json".data] := by
  constructor <;> decide

/-- Claim C1 as amended: when the file exists, is probed, takes the batch
path with a nonempty plan, and every planned segment's cut or
transcription fails, transcribe_in_batches returns the empty result
(text "", chunks []) rather than an error, and save_transcript writes
output files for it. -/
theorem C1_all_fail_returns_empty (env : Env) (d : ℚ)
    (hex : env.file_exists = true) (hp : env.probe = some d)
    (hbig : ¬(env.file_size_mb ≤ 9 ∧ d ≤ 9 * 60))
    (hplan : (pyInt d + (batch_duration - 1)) / batch_duration ≠ 0)
    (hfail : ∀ s ∈ starts d,
      env.cut_ok s = false ∨ transcribe_audio (env.seg_audio s) = none) :
    transcribe_in_batches env = some ⟨[], some []⟩ ∧
    save_transcript (transcribe_in_batches env) "ep".data
      = ["ep.txt".data, "ep_full.json".data] := by
  have hcollect : collectResults env d = [] := by
    rw [collectResults, List.filterMap_eq_nil_iff]
    intro s hs
    rcases hfail s hs with h | h <;> simp [h]
  have : transcribe_in_batches env = some ⟨[], some []⟩ := by
    simp [transcribe_in_batches, transcribe_in_batches_body, hex, hp, hbig, hplan, hcollect,
      assemble, TranscriptionResult.toService]
  exact ⟨this, by rw [this]; rfl⟩

/-- Witness for the amended C1 at a concrete input (the 10 MB, 600 s file
with every cut failing). -/
theorem C1_witness :
    transcribe_in_batches envAllFail = some ⟨[], some []⟩ ∧
    save_transcript (transcribe_in_batches envAllFail) "ep".data
      = ["ep.txt".data, "ep_full.json".data] :=
  C1_all_fail_returns_empty envAllFail 600 rfl rfl (by norm_num [envAllFail])
    (by decide) (fun s _ => Or.inl rfl)

/-! ## Claim C9 -/

/-- Counterexample to claim C9: on a 10 MB file probed at duration 0 the
body raises (ThreadPoolExecutor(max_workers=0) is a ValueError — an
unintended failure mode), the exception is swallowed and the call returns
None — the very same value returned for a nonexistent file — so no
distinct ProbeError (which the code does not define) is ever reported. -/
theorem C9_counterexample :
    transcribe_in_batches_body envZeroDuration = .raised ∧
    transcribe_in_batches envZeroDuration = none ∧
    transcribe_in_batches_body envMissingFile = .returned none ∧
    transcribe_in_batches envMissingFile = transcribe_in_batches envZeroDuration := by
  refine ⟨rfl, by decide, rfl, by decide⟩

/-- Claim C9 as amended: for an existing file, a probe failure makes
transcribe_in_batches return None; and a zero-duration (below one second)
probe on a file above the size threshold also yields None, with an empty
segment plan, so no batch transcription is ever attempted. -/
theorem C9_unprobeable_returns_none (env : Env) (hex : env.file_exists = true) :
    (env.probe = none → transcribe_in_batches env = none) ∧
    (∀ d, env.probe = some d → pyInt d = 0 → 9 < env.file_size_mb →
      transcribe_in_batches env = none ∧ starts d = []) := by
  constructor
  · intro hp
    simp [transcribe_in_batches, transcribe_in_batches_body, hex, hp]
  · intro d hp hd hsize
    have hbig : ¬(env.file_size_mb ≤ 9 ∧ d ≤ 9 * 60) := by
      rintro ⟨h9, -⟩; linarith
    refine ⟨?_, ?_⟩
    · simp [transcribe_in_batches, transcribe_in_batches_body, hex, hp, hbig, hd,
        batch_duration]
    · simp [starts, hd, batch_duration]

/-- Witness for the amended C9 at a concrete input (10 MB, duration 0). -/
theorem C9_witness :
    transcribe_in_batches envZeroDuration = none ∧ starts 0 = [] :=
  (C9_unprobeable_returns_none envZeroDuration rfl).2 0 rfl rfl (by norm_num [envZeroDuration])

/-! ## Character-level facts about sanitize_filename -/

theorem mem_collapseSpacesAux (l : List Char) : ∀ (b : Bool) (c : Char),
    c ∈ collapseSpacesAux b l → c = '_' ∨ (c ∈ l ∧ isSpace c = false) := by
  induction l with
  | nil => intro b c hc; simp [collapseSpacesAux] at hc
  | cons d cs ih =>
    intro b c hc
    rw [collapseSpacesAux] at hc
    split_ifs at hc with hd hb
    · rcases ih true c hc with h | h
      · exact Or.inl h
      · exact Or.inr ⟨List.mem_cons_of_mem _ h.1, h.2⟩
    · rcases List.mem_cons.mp hc with h | h
      · exact Or.inl h
      · rcases ih true c h with h2 | h2
        · exact Or.inl h2
        · exact Or.inr ⟨List.mem_cons_of_mem _ h2.1, h2.2⟩
    · rcases List.mem_cons.mp hc with h | h
      · subst h
        exact Or.inr ⟨List.mem_cons_self _ _, by simpa using hd⟩
      · rcases ih false c h with h2 | h2
        · exact Or.inl h2
        · exact Or.inr ⟨List.mem_cons_of_mem _ h2.1, h2.2⟩

theorem takeWhile_eq_self_of (p : Char → Bool) : ∀ (l : List Char),
    (∀ c ∈ l, p c = true) → l.takeWhile p = l := by
  intro l h
  induction l with
  | nil => rfl
  | cons c cs ih =>
    rw [List.takeWhile_cons, h c (List.mem_cons_self _ _)]
    simp only [ite_true]
    rw [ih (fun d hd => h d (List.mem_cons_of_mem _ hd))]

theorem dropWhile_eq_self_of (p : Char → Bool) : ∀ (l : List Char),
    (∀ c ∈ l, p c = false) → l.dropWhile p = l := by
  intro l h
  cases l with
  | nil => rfl
  | cons c cs =>
    rw [List.dropWhile_cons, h c (List.mem_cons_self _ _)]
    simp

theorem mem_stripChars (l : List Char) (c : Char) (hc : c ∈ stripChars l) : c ∈ l := by
  rw [stripChars, List.mem_reverse] at hc
  have h1 := List.Sublist.subset (List.dropWhile_sublist isSpace) hc
  rw [List.mem_reverse] at h1
  exact List.Sublist.subset (List.dropWhile_sublist isSpace) h1

theorem stripChars_eq_self (l : List Char) (h : ∀ c ∈ l, isSpace c = false) :
    stripChars l = l := by
  rw [stripChars, dropWhile_eq_self_of isSpace l h,
    dropWhile_eq_self_of isSpace l.reverse (fun c hc => h c (List.mem_reverse.mp hc)),
    List.reverse_reverse]

theorem collapseSpacesAux_eq_self (l : List Char) : ∀ (b : Bool),
    (∀ c ∈ l, isSpace c = false) → collapseSpacesAux b l = l := by
  induction l with
  | nil => intro b _; rfl
  | cons c cs ih =>
    intro b h
    rw [collapseSpacesAux]
    rw [h c (List.mem_cons_self _ _)]
    simp only [Bool.false_eq_true, if_false]
    rw [ih false (fun d hd => h d (List.mem_cons_of_mem _ hd))]

theorem flatten_map_nfkdChar : ∀ (l : List Char), (l.map nfkdChar).flatten = l
  | [] => rfl
  | c :: cs => by
    simp only [List.map_cons, List.flatten_cons, nfkdChar, List.singleton_append]
    rw [flatten_map_nfkdChar cs]

/-- Every character of a sanitized name is a word character or a hyphen. -/
theorem sanitize_chars (s : List Char) :
    ∀ c ∈ sanitize_filename s, (isWordChar c || c == '-') = true := by
  intro c hc
  simp only [sanitize_filename] at hc
  rcases mem_collapseSpacesAux _ _ _ hc with h | ⟨hmem, hns⟩
  · subst h; decide
  · have h7 := (List.mem_filter.mp (mem_stripChars _ _ hmem)).2
    simp only [Bool.or_eq_true] at h7 ⊢
    rcases h7 with (hw | hsp) | hd
    · exact Or.inl hw
    · rw [hns] at hsp; exact absurd hsp (by simp)
    · exact Or.inr hd

/-- A sanitized name contains no whitespace at all. -/
theorem sanitize_no_space (s : List Char) :
    ∀ c ∈ sanitize_filename s, isSpace c = false := by
  intro c hc
  simp only [sanitize_filename] at hc
  rcases mem_collapseSpacesAux _ _ _ hc with h | ⟨_, hns⟩
  · subst h; decide
  · exact hns

theorem wordChar_ascii (c : Char) (h : (isWordChar c || c == '-') = true) :
    c.toNat ≤ 127 := by
  rw [Bool.or_eq_true] at h
  rcases h with hw | hd
  · simp only [isWordChar, Bool.or_eq_true, Bool.and_eq_true, decide_eq_true_eq,
      beq_iff_eq] at hw
    omega
  · have : c = '-' := beq_iff_eq.mp hd
    subst this; decide

set_option maxHeartbeats 1000000 in
theorem removePodcast_eq_self : ∀ (l : List Char), (∀ c ∈ l, c ≠ '/') →
    removePodcast l = l := by
  intro l
  induction l with
  | nil => intro _; rfl
  | cons c cs ih =>
    intro h
    rw [removePodcast.eq_def]
    split
    · rename_i heq
      injection heq with h1 _
      exact absurd h1 (h c (List.mem_cons_self _ _))
    · rename_i c2 cs2 heq
      injection heq with h1 h2
      subst h1; subst h2
      rw [ih (fun d hd => h d (List.mem_cons_of_mem _ hd))]
    · rename_i heq
      exact absurd heq (by simp)

theorem lastSlashComponent_eq_self (l : List Char) (h : ∀ c ∈ l, c ≠ '/') :
    lastSlashComponent l = l := by
  rw [lastSlashComponent,
    takeWhile_eq_self_of _ l.reverse
      (fun c hc => decide_eq_true (h c (List.mem_reverse.mp hc))),
    List.reverse_reverse]

/-! ## Claim C5 -/

/-- Counterexample to claim C5: sanitize_filename is not idempotent.  The
pure-ASCII input "i.d123" sanitizes to "id123" (the dot is removed after
the id-digits pass has already run), and sanitizing again removes the
freshly formed "id123" match entirely, yielding the empty string. -/
theorem C5_counterexample :
    sanitize_filename "i.d123".data = "id123".data ∧
    sanitize_filename (sanitize_filename "i.d123".data) = [] ∧
    sanitize_filename (sanitize_filename "i.d123".data) ≠ sanitize_filename "i.d123".data := by
  refine ⟨by decide, by decide, by decide⟩

/-- Claim C5 as amended: sanitize_filename (a pure function, hence
deterministic and side-effect free) is idempotent on exactly those inputs
whose sanitized form is unchanged by the id-digits removal pass — i.e.
contains no "id"-followed-by-a-digit substring; full idempotence fails,
as the counterexample shows. -/
theorem C5_idempotent_unless_id_digits (s : List Char)
    (h : removeIdNum (sanitize_filename s) = sanitize_filename s) :
    sanitize_filename (sanitize_filename s) = sanitize_filename s := by
  have halpha := sanitize_chars s
  have hnos := sanitize_no_space s
  set t := sanitize_filename s with ht
  have hslash : ∀ c ∈ t, c ≠ '/' := by
    intro c hc he
    have h2 := halpha c hc
    subst he
    revert h2; decide
  have hkeep : ∀ c ∈ t, (isWordChar c || isSpace c || c == '-') = true := by
    intro c hc
    have h2 := halpha c hc
    rw [Bool.or_eq_true] at h2
    rcases h2 with hw | hd
    · simp [hw]
    · simp [hd]
  have hascii : ∀ c ∈ t, (decide (c.toNat ≤ 127)) = true := by
    intro c hc
    exact decide_eq_true (wordChar_ascii c (halpha c hc))
  have hq : ∀ c ∈ t, (decide (c ≠ '?')) = true := by
    intro c hc
    refine decide_eq_true ?_
    intro he
    have h2 := halpha c hc
    subst he
    revert h2; decide
  show sanitize_filename t = t
  simp only [sanitize_filename]
  rw [removePodcast_eq_self t hslash, h, takeWhile_eq_self_of _ t hq,
    lastSlashComponent_eq_self t hslash, flatten_map_nfkdChar,
    List.filter_eq_self.mpr hascii, List.filter_eq_self.mpr hkeep,
    stripChars_eq_self t hnos, collapseSpaces, collapseSpacesAux_eq_self t false hnos]

/-- Witness for the amended C5 at a concrete input: "a b" sanitizes to
"a_b", which the id-digits pass leaves unchanged, so a second
sanitization is the identity on it. -/
theorem C5_witness :
    removeIdNum (sanitize_filename "a b".data) = sanitize_filename "a b".data ∧
    sanitize_filename (sanitize_filename "a b".data) = sanitize_filename "a b".data :=
  ⟨by decide, C5_idempotent_unless_id_digits "a b".data (by decide)⟩

/-! ## Claim C6 -/

/-- Counterexample to claim C6: the output alphabet is not limited to
word characters and underscores — hyphens survive ("a-b" sanitizes to
itself, and '-' is not a word character) — and leading/trailing
whitespace is stripped outright, not collapsed to underscores
(" a" sanitizes to "a", not "_a"). -/
theorem C6_counterexample :
    sanitize_filename "a-b".data = "a-b".data ∧
    '-' ∈ sanitize_filename "a-b".data ∧
    isWordChar '-' = false ∧ '-' ≠ '_' ∧
    sanitize_filename " a".data = "a".data ∧
    sanitize_filename " a".data ≠ "_a".data := by
  refine ⟨by decide, by decide, by decide, by decide, by decide, by decide⟩

/-- Claim C6 as amended: every character of a sanitized name is a word
character or a hyphen (so in particular ASCII-only), the output contains
no path separators, and it contains no whitespace at all: interior
whitespace runs are collapsed to single underscores while leading and
trailing whitespace is removed by the strip step. -/
theorem C6_output_charset (s : List Char) :
    (∀ c ∈ sanitize_filename s, (isWordChar c || c == '-') = true) ∧
    (∀ c ∈ sanitize_filename s, c.toNat ≤ 127) ∧
    (∀ c ∈ sanitize_filename s, c ≠ '/' ∧ c ≠ '\\') ∧
    (∀ c ∈ sanitize_filename s, isSpace c = false) := by
  refine ⟨sanitize_chars s, fun c hc => wordChar_ascii c (sanitize_chars s c hc),
    fun c hc => ?_, sanitize_no_space s⟩
  have h2 := sanitize_chars s c hc
  constructor <;> intro he <;> subst he <;> revert h2 <;> decide

/-! ## Claim C2 -/

theorem tilesB_nil (lo hi : ℚ) : tilesB lo [] hi = (lo == hi) := rfl

theorem tilesB_cons (lo hi o len : ℚ) (rest : List (ℚ × ℚ)) :
    tilesB lo ((o, len) :: rest) hi
      = ((o == lo) && (decide ((0 : ℚ) < len)) && tilesB (o + len) rest hi) := rfl

/-- A run of k+1 consecutive 540-second offsets starting at s, each
segment truncated to min 540 (n - offset), tiles [s, n) exactly when
s + 540k < n ≤ s + 540k + 540. -/
theorem tilesB_range' (k : ℕ) : ∀ (s : ℕ) (n : ℚ),
    (s : ℚ) + 540 * (k : ℚ) < n → n ≤ (s : ℚ) + 540 * (k : ℚ) + 540 →
    tilesB (s : ℚ)
      ((List.range' s (k + 1) 540).map (fun (o : ℕ) => ((o : ℚ), min 540 (n - (o : ℚ))))) n
      = true := by
  induction k with
  | zero =>
    intro s n h1 h2
    norm_num at h1 h2
    have hmin : min (540 : ℚ) (n - (s : ℚ)) = n - (s : ℚ) := min_eq_right (by linarith)
    rw [List.range'_one, List.map_cons, List.map_nil, tilesB_cons, hmin, tilesB_nil,
      Bool.and_eq_true, Bool.and_eq_true]
    refine ⟨⟨beq_self_eq_true _, decide_eq_true (by linarith)⟩, ?_⟩
    exact beq_iff_eq.mpr (by ring)
  | succ k ih =>
    intro s n h1 h2
    push_cast at h1 h2
    have hmin : min (540 : ℚ) (n - (s : ℚ)) = 540 := by
      have hk : (0 : ℚ) ≤ (k : ℚ) := Nat.cast_nonneg k
      exact min_eq_left (by nlinarith)
    rw [List.range'_succ, List.map_cons, tilesB_cons, hmin,
      Bool.and_eq_true, Bool.and_eq_true]
    refine ⟨⟨beq_self_eq_true _, decide_eq_true (by norm_num)⟩, ?_⟩
    have htail := ih (s + 540) n (by push_cast; linarith) (by push_cast; linarith)
    have hcast : ((s + 540 : ℕ) : ℚ) = (s : ℚ) + 540 := by push_cast; ring
    rw [hcast] at htail
    exact htail

/-- A tiling's last segment ends exactly at the right endpoint. -/
theorem tilesB_getLast (l : List (ℚ × ℚ)) : ∀ (lo hi : ℚ), tilesB lo l hi = true →
    ∀ p, l.getLast? = some p → p.1 + p.2 = hi := by
  induction l with
  | nil => intro lo hi _ p hp; simp at hp
  | cons q l ih =>
    intro lo hi h p hp
    obtain ⟨o, len⟩ := q
    cases l with
    | nil =>
      simp only [List.getLast?_singleton, Option.some_inj] at hp
      subst hp
      rw [tilesB_cons, tilesB_nil, Bool.and_eq_true] at h
      exact beq_iff_eq.mp h.2
    | cons r l2 =>
      rw [List.getLast?_cons_cons] at hp
      rw [tilesB_cons, Bool.and_eq_true] at h
      exact ih (o + len) hi h.2 p hp

set_option maxRecDepth 4000 in
/-- Counterexample to claim C2: a file probed at 540.5 seconds (above the
9-minute direct-path bound) yields starts = [0] and the single planned
segment (0, 540), which does not cover [0, 540.5): the final half second
is dropped, and the last segment's length is 540, not
totalDuration - lastOffset = 540.5. -/
theorem C2_counterexample :
    mkRat 1081 2 = (1081 / 2 : ℚ) ∧
    batchPlan (mkRat 1081 2) = [((0 : ℚ), (540 : ℚ))] ∧
    tilesB 0 (batchPlan (mkRat 1081 2)) (mkRat 1081 2) = false ∧
    ¬((540 : ℚ) = mkRat 1081 2 - 0) := by
  have hval : mkRat 1081 2 = (1081 / 2 : ℚ) := by norm_num [Rat.mkRat_eq_div]
  have hstarts : starts (mkRat 1081 2) = [0] := by decide
  have hplan : batchPlan (mkRat 1081 2) = [((0 : ℚ), (540 : ℚ))] := by
    rw [batchPlan, hstarts, List.map_cons, List.map_nil, hval]
    have hmin : min ((batch_duration : ℕ) : ℚ) ((1081 / 2 : ℚ) - ((0 : ℕ) : ℚ)) = 540 := by
      rw [min_eq_left (by norm_num [batch_duration])]
      norm_num [batch_duration]
    rw [hmin]
    norm_num
  refine ⟨hval, hplan, ?_, by rw [hval]; norm_num⟩
  rw [hplan, tilesB_cons, hval]
  have h3 : (((0 : ℚ) + 540) == (1081 / 2 : ℚ)) = false := by
    rw [beq_eq_false_iff_ne]
    norm_num
  rw [tilesB_nil, h3, Bool.and_false]

/-- Claim C2 as amended: when the probed duration is a positive whole
number of seconds, the batch plan (offsets from starts, each segment 540
seconds, the last truncated to the remaining duration) tiles
[0, totalDuration) contiguously with no gaps or overlaps, and the last
segment's length is totalDuration - lastOffset.  (For fractional
durations the plan is computed from int(duration) and can drop the final
fraction of a second, as the counterexample shows.) -/
theorem C2_integer_plan_tiles (n : ℕ) (hn : 1 ≤ n) :
    tilesB 0 (batchPlan (n : ℚ)) (n : ℚ) = true ∧
    ∀ p, (batchPlan (n : ℚ)).getLast? = some p → p.2 = (n : ℚ) - p.1 := by
  have hpy : pyInt (n : ℚ) = n := by
    simp [pyInt, Rat.num_natCast, Rat.den_natCast]
  set k := (n + 539) / 540 with hk
  have hdm := Nat.div_add_mod (n + 539) 540
  have hmod := Nat.mod_lt (n + 539) (show 0 < 540 by norm_num)
  have hk1 : 1 ≤ k := by omega
  have hlow : 540 * (k - 1) < n := by omega
  have hhigh : n ≤ 540 * k := by omega
  have hplan : batchPlan (n : ℚ)
      = (List.range' 0 ((k - 1) + 1) 540).map
          (fun (o : ℕ) => ((o : ℚ), min 540 ((n : ℚ) - (o : ℚ)))) := by
    have : (k - 1) + 1 = k := by omega
    rw [this]
    simp [batchPlan, starts, batch_duration, hpy, hk]
  have htile : tilesB 0 (batchPlan (n : ℚ)) (n : ℚ) = true := by
    rw [hplan]
    have h1 : ((0 : ℕ) : ℚ) + 540 * ((k - 1 : ℕ) : ℚ) < (n : ℚ) := by
      push_cast [Nat.cast_sub hk1]
      have : ((540 * (k - 1) : ℕ) : ℚ) < (n : ℚ) := by exact_mod_cast hlow
      push_cast [Nat.cast_sub hk1] at this
      linarith
    have h2 : (n : ℚ) ≤ ((0 : ℕ) : ℚ) + 540 * ((k - 1 : ℕ) : ℚ) + 540 := by
      have : ((n : ℕ) : ℚ) ≤ ((540 * k : ℕ) : ℚ) := by exact_mod_cast hhigh
      push_cast [Nat.cast_sub hk1] at this ⊢
      linarith
    simpa using tilesB_range' (k - 1) 0 (n : ℚ) (by simpa using h1) (by simpa using h2)
  refine ⟨htile, fun p hp => ?_⟩
  have := tilesB_getLast (batchPlan (n : ℚ)) 0 (n : ℚ) htile p hp
  linarith

/-- Witness for the amended C2 at a concrete input: an 1100-second file,
whose plan is [(0,540), (540,540), (1080,20)]. -/
theorem C2_witness :
    tilesB 0 (batchPlan ((1100 : ℕ) : ℚ)) ((1100 : ℕ) : ℚ) = true ∧
    ∀ p, (batchPlan ((1100 : ℕ) : ℚ)).getLast? = some p → p.2 = ((1100 : ℕ) : ℚ) - p.1 :=
  C2_integer_plan_tiles 1100 (by norm_num)

/-! ## Claim C7 -/

/-- Each offset collected on the batch path is a 540-multiple below the
probed duration's floor. -/
theorem offset_of_mem_starts (d : ℚ) (o : ℚ)
    (ho : o ∈ (starts d).map (fun (s : ℕ) => (s : ℚ))) :
    ∃ i : ℕ, o = ((540 * i : ℕ) : ℚ) := by
  obtain ⟨s, hs, rfl⟩ := List.mem_map.mp ho
  rw [starts, List.mem_range'] at hs
  obtain ⟨i, _, rfl⟩ := hs
  exact ⟨i, by norm_num [batch_duration, Nat.mul_comm]⟩

/-- Claim C7: for any collection of per-segment results whose offsets
come from the batch plan and are pairwise distinct, if each segment's
chunks are monotonically ordered and lie within that segment's duration
(at most 540 seconds, truncated at the file end), then the assembled
chunk sequence is monotonically non-decreasing in start and every
chunk's start and end lie within [0, totalDuration]. -/
theorem C7_monotone_and_bounded (d : ℚ) (results : List (ℚ × ServiceResult))
    (hoff : ∀ p ∈ results, p.1 ∈ (starts d).map (fun (s : ℕ) => (s : ℚ)))
    (hnodup : (results.map Prod.fst).Nodup)
    (hchunks : ∀ p ∈ results, ∀ c ∈ p.2.chunks.getD [],
        0 ≤ c.start ∧ c.start ≤ c.stop ∧ c.stop ≤ min 540 (d - p.1))
    (hmono : ∀ p ∈ results,
        (p.2.chunks.getD []).Pairwise (fun a b => a.start ≤ b.start)) :
    ((assemble results).chunks.Pairwise (fun a b => a.start ≤ b.start)) ∧
    (∀ c ∈ (assemble results).chunks,
        0 ≤ c.start ∧ c.start ≤ c.stop ∧ c.stop ≤ d) := by
  have hperm := List.perm_insertionSort byOffset results
  have hmem : ∀ p ∈ results.insertionSort byOffset, p ∈ results :=
    fun p hp => hperm.mem_iff.mp hp
  have hsorted : (results.insertionSort byOffset).Pairwise byOffset :=
    List.sorted_insertionSort byOffset results
  have hnodup2 : ((results.insertionSort byOffset).map Prod.fst).Nodup :=
    (List.Perm.nodup_iff (hperm.map Prod.fst)).mpr hnodup
  have hne : (results.insertionSort byOffset).Pairwise (fun p q => p.1 ≠ q.1) :=
    List.pairwise_map.mp hnodup2
  have hlt : (results.insertionSort byOffset).Pairwise (fun p q => p.1 < q.1) :=
    (hsorted.and hne).imp (fun h => lt_of_le_of_ne h.1 h.2)
  -- the shifted chunks of one segment lie within [offset, offset + 540]
  have hseg : ∀ p ∈ results, ∀ x ∈ segChunks p,
      p.1 ≤ x.start ∧ x.start ≤ x.stop ∧ x.stop ≤ p.1 + min 540 (d - p.1) := by
    intro p hp x hx
    obtain ⟨c, hc, rfl⟩ := List.mem_map.mp hx
    obtain ⟨h0, h1, h2⟩ := hchunks p hp c hc
    refine ⟨by simpa using by linarith, by simpa using by linarith, by simpa using by linarith⟩
  rw [assemble_chunks]
  constructor
  · rw [List.pairwise_flatten]
    constructor
    · intro cl hcl
      obtain ⟨p, hp, rfl⟩ := List.mem_map.mp hcl
      rw [segChunks, List.pairwise_map]
      exact (hmono p (hmem p hp)).imp (fun h => by simpa using h)
    · rw [List.pairwise_map]
      refine hlt.imp_of_mem ?_
      intro p q hp hq hpq x hx y hy
      obtain ⟨i, hi⟩ := offset_of_mem_starts d p.1 (hoff p (hmem p hp))
      obtain ⟨j, hj⟩ := offset_of_mem_starts d q.1 (hoff q (hmem q hq))
      have hij : i < j := by
        by_contra hle
        push_neg at hle
        have : ((540 * j : ℕ) : ℚ) ≤ ((540 * i : ℕ) : ℚ) := by
          exact_mod_cast Nat.mul_le_mul_left 540 hle
        rw [← hi, ← hj] at this
        exact absurd hpq (not_lt.mpr this)
      have hgap : p.1 + 540 ≤ q.1 := by
        rw [hi, hj]
        push_cast
        have : (i : ℚ) + 1 ≤ (j : ℚ) := by exact_mod_cast hij
        nlinarith
      have hx2 := hseg p (hmem p hp) x hx
      have hy2 := hseg q (hmem q hq) y hy
      have hxmin : x.stop ≤ p.1 + 540 := le_trans hx2.2.2 (by
        have := min_le_left (540 : ℚ) (d - p.1)
        linarith)
      calc x.start ≤ x.stop := hx2.2.1
        _ ≤ p.1 + 540 := hxmin
        _ ≤ q.1 := hgap
        _ ≤ y.start := hy2.1
  · intro c hc
    obtain ⟨cl, hcl, hcin⟩ := List.mem_flatten.mp hc
    obtain ⟨p, hp, rfl⟩ := List.mem_map.mp hcl
    have hpr := hmem p hp
    obtain ⟨i, hi⟩ := offset_of_mem_starts d p.1 (hoff p hpr)
    have hp0 : 0 ≤ p.1 := by rw [hi]; exact_mod_cast Nat.zero_le _
    have hs := hseg p hpr c hcin
    have hmin : min (540 : ℚ) (d - p.1) ≤ d - p.1 := min_le_right _ _
    exact ⟨le_trans hp0 hs.1, hs.2.1, by linarith [hs.2.2]⟩

/-- The concrete results used in the C7 witness: two segments of a
600-second file, given out of order. -/
def c7results : List (ℚ × ServiceResult) :=
  [((540 : ℚ), ⟨"b".data, some [⟨0, 5, "b".data⟩]⟩),
   ((0 : ℚ), ⟨"a".data, some [⟨1, 2, "a".data⟩]⟩)]

/-- Witness for C7 at a concrete input: a 600-second file with segments
at offsets 540 and 0 (completion order reversed), each with one in-range
chunk. -/
theorem C7_witness :
    (c7results.map Prod.fst).Nodup ∧
    ((assemble c7results).chunks.Pairwise (fun a b => a.start ≤ b.start) ∧
      ∀ c ∈ (assemble c7results).chunks,
        0 ≤ c.start ∧ c.start ≤ c.stop ∧ c.stop ≤ (600 : ℚ)) :=
  ⟨by decide, C7_monotone_and_bounded 600 c7results
    (by intro p hp; fin_cases hp <;> decide)
    (by decide)
    (by intro p hp c hc; fin_cases hp <;> simp only [c7results] at hc ⊢ <;>
      fin_cases hc <;> norm_num [min_def])
    (by intro p hp; fin_cases hp <;> simp)⟩

/-! ## Claim C3 -/

/-- Claim C3: every chunk of every collected segment result appears in
the assembled chunk sequence with the segment's offset added to both its
start and its end field. -/
theorem C3_offsets_added (results : List (ℚ × ServiceResult)) (p : ℚ × ServiceResult)
    (hp : p ∈ results) (c : Chunk) (hc : c ∈ p.2.chunks.getD []) :
    (⟨c.start + p.1, c.stop + p.1, c.text⟩ : Chunk) ∈ (assemble results).chunks := by
  rw [assemble_chunks]
  have hmem : p ∈ results.insertionSort byOffset :=
    (List.perm_insertionSort byOffset results).mem_iff.2 hp
  exact List.mem_flatten_of_mem (List.mem_map_of_mem segChunks hmem)
    (List.mem_map_of_mem _ hc)

/-- The scenario of claim C3: segment results at offsets 0, 1800 and 3600
(a 90-minute file split into three 30-minute segments), with the remote
service returning the chunk (0, 5, "hi") for the segment at offset
1800. -/
def scenarioResults : List (ℚ × ServiceResult) :=
  [(0, ⟨"first".data, some []⟩),
   (1800, ⟨"hi".data, some [⟨0, 5, "hi".data⟩]⟩),
   (3600, ⟨"last".data, some []⟩)]

/-- Witness for C3 on the three-segment scenario: the chunk (0, 5, "hi")
of the segment at offset 1800 appears in the assembled result as
(1800, 1805, "hi"). -/
theorem C3_witness :
    (⟨1800, 1805, "hi".data⟩ : Chunk) ∈ (assemble scenarioResults).chunks := by
  have h := C3_offsets_added scenarioResults
    (1800, ⟨"hi".data, some [⟨0, 5, "hi".data⟩]⟩) (by decide)
    ⟨0, 5, "hi".data⟩ (by decide)
  norm_num at h
  exact h

/-! ## Claim C8 -/

/-- Counterexample to claim C8: one surviving segment with text "hi"
assembles to the final text "hi " — a single trailing space is appended
after the last segment's text, so the final text is not the bare
space-separated concatenation. -/
theorem C8_counterexample :
    (assemble [((0 : ℚ), (⟨"hi".data, none⟩ : ServiceResult))]).text = "hi ".data ∧
    "hi ".data ≠ "hi".data := by
  constructor <;> decide

/-- Claim C8 as amended: for results in ascending offset order, the final
text is the concatenation of the surviving segments' text fields in that
order, each followed by exactly one space (in particular a single space
separates consecutive texts, and one trailing space follows the last). -/
theorem C8_text_is_join (results : List (ℚ × ServiceResult))
    (hsorted : results.Sorted byOffset) :
    (assemble results).text = (results.map (fun p => p.2.text ++ [' '])).flatten := by
  rw [assemble_text, hsorted.insertionSort_eq]

/-- Witness for the amended C8 at a concrete input: two segments in
ascending offset order. -/
theorem C8_witness :
    ([((0 : ℚ), (⟨"a".data, none⟩ : ServiceResult)),
      ((540 : ℚ), (⟨"b".data, some []⟩ : ServiceResult))].Sorted byOffset) ∧
    (assemble [((0 : ℚ), (⟨"a".data, none⟩ : ServiceResult)),
      ((540 : ℚ), (⟨"b".data, some []⟩ : ServiceResult))]).text = "a b ".data :=
  ⟨by decide, by
    rw [C8_text_is_join _ (by decide)]
    decide⟩

end TranscriberWiz
